import Mathlib

/-!
Verification of the JACK repository's two source files against its
specification:

* `src/jack/clients/CommandLineClient.py` — a Python 2 line-oriented TCP
  client: a `Receiver` thread iterating over `sock.makefile()` and printing
  each line `rstrip()`-ed, a `cmd.Cmd` subclass whose `default` handler
  forwards lines to the socket, and a `main` that parses `argv` and
  connects.
* `web/ffad/urls.py` — a Django URL table of seven patterns.

Byte strings are modelled as `List Char` (the streams are text-mode).
Python library behaviour that the source relies on (`str.rstrip`,
file-object line iteration, `cmd.Cmd.parseline`/`onecmd`/`cmdloop`,
`int()`) is embedded faithfully from the documented CPython 2.7 semantics.
-/

/-- The six characters Python's `str.isspace`/`strip`/`rstrip` treat as
whitespace: space, tab, newline, carriage return, vertical tab, form feed. -/
def isPySpace (c : Char) : Bool :=
  c = ' ' || c = '\t' || c = '\n' || c = '\r' || c = '\x0b' || c = '\x0c'

/-- Python `s.rstrip()` with no argument: remove all trailing whitespace. -/
def pyRstrip (s : List Char) : List Char :=
  (s.reverse.dropWhile isPySpace).reverse

/-- Python `s.strip()` with no argument: remove leading and trailing
whitespace. -/
def pyStrip (s : List Char) : List Char :=
  pyRstrip (s.dropWhile isPySpace)

/-- Helper for `fileLines`: accumulates the current (reversed) partial line
while scanning the stream.  A `'\n'` closes the line (the newline is kept,
as Python file iteration keeps it); at end of stream a nonempty partial
line is yielded as a final line, an empty one is not. -/
def splitAux : List Char → List Char → List (List Char)
  | [], acc => if acc = [] then [] else [acc.reverse]
  | c :: cs, acc =>
      if c = '\n' then (acc.reverse ++ ['\n']) :: splitAux cs []
      else splitAux cs (c :: acc)

/-- Line iteration over a Python 2 file object (`for message in f` on
`sock.makefile()`): the stream is cut after each `'\n'`, each yielded line
keeps its trailing `'\n'`, and a trailing chunk with no newline is yielded
as a final line. -/
def fileLines (s : List Char) : List (List Char) := splitAux s []

/-- The wire encoding of a list of logical line contents: each content is
sent as the content followed by one `'\n'`, concatenated in order. -/
def linesJoin (contents : List (List Char)) : List Char :=
  (contents.map (fun l => l ++ ['\n'])).flatten

/-- `Receiver.run`: iterate over the lines of `sock.makefile()` and handle
each with `print '\r>>>>', message.rstrip()`.  The value returned is the
ordered list of handled (printed) message payloads, i.e. each received
line after `rstrip()`. -/
def receiverRun (stream : List Char) : List (List Char) :=
  (fileLines stream).map pyRstrip

/-! ### The interactive sender: `cmd.Cmd` with only `default` overridden

`CommandLineClient(cmd.Cmd)` defines `default(self, line)` as
`self.sock.send(line + '\n')` and inherits everything else from the
Python 2.7 `cmd` module: `parseline` (strip, `?` → `help`, `!` → shell
when `do_shell` exists, identifier-prefix command word), `onecmd`
(empty line → `emptyline()` which re-runs `lastcmd`; unknown command →
`default`), and `cmdloop` (`raw_input`; `EOFError` → line `'EOF'`).
The only `do_*` handler that exists on the class is the inherited
`do_help`. -/

/-- `cmd.Cmd.identchars`: ASCII letters, digits and underscore. -/
def isIdentChar (c : Char) : Bool := c.isAlpha || c.isDigit || c = '_'

/-- The observable action one dispatched input line produces:
nothing at all, a call to the inherited `do_help(arg)`, or
`default(line)` = `sock.send(line + '\n')` carrying the exact bytes
handed to the socket. -/
inductive CmdAction where
  | doNothing : CmdAction
  | helpCall (arg : List Char) : CmdAction
  | sendBytes (msg : List Char) : CmdAction
deriving DecidableEq, Repr

/-- `cmd.Cmd.parseline(line)`: strips the line; empty → `(None, None, line)`;
a leading `?` is rewritten to `help `; a leading `!` returns
`(None, None, line)` because the class has no `do_shell`; otherwise the
command word is the maximal `identchars` prefix and the argument is the
stripped remainder.  Returns `(cmd, arg, line)`. -/
def parseline (line : List Char) :
    Option (List Char) × Option (List Char) × List Char :=
  let l := pyStrip line
  if l = [] then (none, none, l)
  else if l.head? = some '?' then
    let l2 := ['h', 'e', 'l', 'p', ' '] ++ l.tail
    let c := l2.takeWhile isIdentChar
    (some c, some (pyStrip (l2.drop c.length)), l2)
  else if l.head? = some '!' then (none, none, l)
  else
    let c := l.takeWhile isIdentChar
    (some c, some (pyStrip (l.drop c.length)), l)

/-- The non-empty-line part of `cmd.Cmd.onecmd`: dispatch a line whose
stripped form is nonempty.  `lastcmd` is set to the parsed line (reset to
`''` when the line is `'EOF'`); a command word of `''` or one with no
`do_` method goes to `default(line)`; the only existing handler is
`do_help`.  Returns the action and the new `lastcmd`. -/
def onecmdStep (line lastcmd : List Char) : CmdAction × List Char :=
  match parseline line with
  | (none, _, l) =>
      if l = [] then (CmdAction.doNothing, lastcmd)
      else (CmdAction.sendBytes (l ++ ['\n']), lastcmd)
  | (some cw, a, l) =>
      let lc := if l = ['E', 'O', 'F'] then ([] : List Char) else l
      if cw = [] then (CmdAction.sendBytes (l ++ ['\n']), lc)
      else if cw = ['h', 'e', 'l', 'p'] then (CmdAction.helpCall (a.getD []), lc)
      else (CmdAction.sendBytes (l ++ ['\n']), lc)

/-- `cmd.Cmd.onecmd(line)`: an all-whitespace line runs `emptyline()`,
which re-dispatches `lastcmd` when it is nonempty (the stored `lastcmd`
is always an already-stripped nonempty line, so one unfolding of the
recursion is exact) and does nothing otherwise; other lines are
dispatched directly. -/
def onecmd (line lastcmd : List Char) : CmdAction × List Char :=
  if pyStrip line = [] then
    if lastcmd = [] then (CmdAction.doNothing, lastcmd)
    else onecmdStep lastcmd lastcmd
  else onecmdStep line lastcmd

/-- `cmd.Cmd.cmdloop` driven for `fuel` iterations over a model of stdin
(the list of remaining input lines, newline already removed as
`raw_input` does).  When stdin is exhausted, `raw_input` raises
`EOFError` and `cmdloop` substitutes the literal line `'EOF'` — on every
subsequent iteration.  Every handler reachable in this class (`default`,
`do_help`, `emptyline`) returns `None`, so `stop` is never set; the
returned Bool is whether the loop exited by itself within `fuel`
iterations (`false` = still running when the fuel ran out). -/
def cmdloop : Nat → List (List Char) → List Char → List CmdAction × Bool
  | 0, _, _ => ([], false)
  | fuel + 1, stdinLines, lastcmd =>
      let step : (List Char) × List (List Char) :=
        match stdinLines with
        | [] => (['E', 'O', 'F'], [])
        | l :: ls => (l, ls)
      let r := onecmd step.1 lastcmd
      let rest := cmdloop fuel step.2 r.2
      (r.1 :: rest.1, rest.2)

/-- `CommandLineClient.default(line)`: the byte string passed to
`sock.send`, namely `line + '\n'` — the newline is appended
unconditionally. -/
def defaultSend (line : List Char) : List Char := line ++ ['\n']

/-- The socket writes performed by one call to
`CommandLineClient.default`: a single `send` call carrying
`defaultSend line`. -/
def defaultWrites (line : List Char) : List (List Char) := [defaultSend line]

/-- The number of consecutive `'\n'` characters at the end of a byte
string (to state "ends in exactly one newline terminator"). -/
def newlineTail (s : List Char) : Nat :=
  (s.reverse.takeWhile (fun c => c = '\n')).length

/-! ### `main(argv)`: argument parsing and startup effects -/

/-- Decimal value of a digit list (used by `pyInt`). -/
def digitsToNat (ds : List Char) : Nat :=
  ds.foldl (fun n c => 10 * n + (c.toNat - '0'.toNat)) 0

/-- Python 2 `int(s)` on a string, base 10: surrounding whitespace is
ignored, then an optional single `+`/`-` sign, then at least one decimal
digit and nothing else; anything different raises `ValueError`
(modelled as `none`). -/
def pyInt (s : List Char) : Option Int :=
  let t := pyStrip s
  match t with
  | '+' :: ds =>
      if ds ≠ [] ∧ ds.all Char.isDigit then some (digitsToNat ds) else none
  | '-' :: ds =>
      if ds ≠ [] ∧ ds.all Char.isDigit then some (-(digitsToNat ds : Int)) else none
  | ds =>
      if ds ≠ [] ∧ ds.all Char.isDigit then some (digitsToNat ds) else none

/-- The observable startup steps of `main`, in program order. -/
inductive MainEffect where
  | createSocket : MainEffect
  | connectTo (host : List Char) (port : Int) : MainEffect
  | banner (host : List Char) (port : Int) : MainEffect
  | startReceiver : MainEffect
  | startCmdloop : MainEffect
deriving DecidableEq, Repr

/-- The Python exceptions the modelled startup can raise. -/
inductive PyExc where
  | valueError : PyExc
deriving DecidableEq, Repr

/-- The default host `'127.0.0.1'`. -/
def defaultHost : List Char :=
  ['1', '2', '7', '.', '0', '.', '0', '.', '1']

/-- The startup effect trace of the successful path of `main`. -/
def okTrace (host : List Char) (port : Int) : List MainEffect :=
  [MainEffect.createSocket, MainEffect.connectTo host port,
   MainEffect.banner host port, MainEffect.startReceiver,
   MainEffect.startCmdloop]

/-- `main(argv)` up to entering the loops: `host = argv[1] if len(argv) > 1
else '127.0.0.1'`; `port = int(argv[2]) if len(argv) > 2 else 1300`; then
the socket is created, connected, the banner printed, the `Receiver`
started and `cmdloop` entered.  Returns the effects performed and the
exception, if any, that aborted the startup: a failed `int(argv[2])`
raises `ValueError` before any effect. -/
def mainStartup (argv : List (List Char)) : List MainEffect × Option PyExc :=
  let host := match argv.drop 1 with
    | h :: _ => h
    | [] => defaultHost
  match (match argv.drop 2 with
         | p :: _ => pyInt p
         | [] => some 1300) with
  | none => ([], some PyExc.valueError)
  | some port => (okTrace host port, none)

/-! ### The Django URL table of `web/ffad/urls.py` -/

/-- The view functions named by `urlpatterns`. -/
inductive View where
  | index : View
  | draft : View
  | register : View
  | get_manager_updates : View
  | get_player_updates : View
  | get_team : View
  | place_bid : View
deriving DecidableEq, Repr

/-- The shape of the regexes used in `urlpatterns`: `^$`, or
`^(?P<draft_id>\d+)LIT$` where `LIT` is a literal beginning with `/`. -/
inductive UPat where
  | emptyPath : UPat
  | digitsThen (lit : List Char) : UPat
deriving DecidableEq, Repr

/-- `urlpatterns`, in source order. -/
def urlpatterns : List (UPat × View) :=
  [(UPat.emptyPath, View.index),
   (UPat.digitsThen ['/'], View.draft),
   (UPat.digitsThen ['/', 'r', 'e', 'g', 'i', 's', 't', 'e', 'r'], View.register),
   (UPat.digitsThen ['/', 'g', 'e', 't', '_', 'm', 'a', 'n', 'a', 'g', 'e', 'r',
     '_', 'u', 'p', 'd', 'a', 't', 'e', 's'], View.get_manager_updates),
   (UPat.digitsThen ['/', 'g', 'e', 't', '_', 'p', 'l', 'a', 'y', 'e', 'r',
     '_', 'u', 'p', 'd', 'a', 't', 'e', 's'], View.get_player_updates),
   (UPat.digitsThen ['/', 'g', 'e', 't', '_', 't', 'e', 'a', 'm'], View.get_team),
   (UPat.digitsThen ['/', 'p', 'l', 'a', 'c', 'e', '_', 'b', 'i', 'd'], View.place_bid)]

/-- Whether a path matches one pattern, and the captured `draft_id`.
`^$` matches only the empty path and captures nothing.
`^(?P<draft_id>\d+)LIT$` (with `LIT` starting with the non-digit `/`)
matches exactly the paths of the form `digits ++ LIT` with at least one
digit; since `\d+` cannot cross the `/`, the capture is necessarily the
maximal digit prefix. -/
def matchUPat : UPat → List Char → Option (Option (List Char))
  | UPat.emptyPath, p => if p = [] then some none else none
  | UPat.digitsThen lit, p =>
      let d := p.takeWhile Char.isDigit
      if d ≠ [] ∧ p.drop d.length = lit then some (some d) else none

/-- Try the patterns in table order; the first match wins (Django URL
resolution order). -/
def dispatch : List (UPat × View) → List Char → Option (View × Option (List Char))
  | [], _ => none
  | (pat, v) :: rest, p =>
      match matchUPat pat p with
      | some capture => some (v, capture)
      | none => dispatch rest p

/-- Resolution of a request path against `urlpatterns`. -/
def resolve (p : List Char) : Option (View × Option (List Char)) :=
  dispatch urlpatterns p

/-- The leading segment of a path: the characters before the first `/`
(the whole path when it has no `/`). -/
def leadSegment (p : List Char) : List Char := p.takeWhile (fun c => c ≠ '/')

/-! ### The Session `Close()` of the specified core

No `Session`/`Connection`/`Close` exists in the repository's source;
the specification defines them as the core the client implies. -/

/-- Modelled from the spec: the session connection states of §4.4
(`Disconnected → Connecting → Connected → Closing → Closed`,
`Closed` terminal). -/
inductive SessState where
  | disconnected : SessState
  | connecting : SessState
  | connected : SessState
  | closing : SessState
  | closed : SessState
deriving DecidableEq, Repr

/-- Modelled from the spec: a `Session` owns its connection state, whether
the underlying socket resource has been released, and how many times the
release has been performed (to express "does not double-release"). -/
structure Session where
  state : SessState
  released : Bool
  releases : Nat
deriving DecidableEq, Repr

/-- Modelled from the spec: `Close()` (§4.1, §4.4).  On a session not yet
`Closed` it runs the `Closing` cleanup — releasing the socket — and ends
in the terminal `Closed` state; on an already-`Closed` session it is a
no-op (any later operation just gets `ClosedError`), in particular the
socket is not released again. -/
def sessionClose (s : Session) : Session :=
  if s.state = SessState.closed then s
  else { state := SessState.closed, released := true, releases := s.releases + 1 }

-- Theorems start here (helper lemmas first).

theorem isPySpace_newline : isPySpace '\n' = true := by decide

theorem splitAux_no_newline (l : List Char) (h : '\n' ∉ l) :
    ∀ rest acc, splitAux (l ++ rest) acc = splitAux rest (l.reverse ++ acc) := by
  induction l with
  | nil => intro rest acc; simp
  | cons c cs ih =>
      intro rest acc
      have hc : c ≠ '\n' := fun hc => h (hc ▸ List.mem_cons_self c cs)
      have hcs : '\n' ∉ cs := fun hm => h (List.mem_cons_of_mem c hm)
      simp only [List.cons_append, splitAux, if_neg (fun hh => hc hh), List.append_eq]
      rw [ih hcs rest (c :: acc)]
      simp

theorem splitAux_line (l rest : List Char) (h : '\n' ∉ l) :
    splitAux (l ++ '\n' :: rest) [] = (l ++ ['\n']) :: splitAux rest [] := by
  rw [splitAux_no_newline l h ('\n' :: rest) []]
  simp [splitAux]

theorem fileLines_linesJoin_append (tailChunk : List Char) :
    ∀ contents : List (List Char), (∀ l ∈ contents, '\n' ∉ l) →
    fileLines (linesJoin contents ++ tailChunk) =
      contents.map (fun l => l ++ ['\n']) ++ fileLines tailChunk := by
  intro contents
  induction contents with
  | nil => intro _; simp [linesJoin]
  | cons c cs ih =>
      intro h
      have hc : '\n' ∉ c := h c (List.mem_cons_self c cs)
      have hcs : ∀ l ∈ cs, '\n' ∉ l := fun l hl => h l (List.mem_cons_of_mem c hl)
      have h2 : linesJoin (c :: cs) ++ tailChunk = c ++ '\n' :: (linesJoin cs ++ tailChunk) := by
        simp [linesJoin]
      calc fileLines (linesJoin (c :: cs) ++ tailChunk)
          = splitAux (c ++ '\n' :: (linesJoin cs ++ tailChunk)) [] := by rw [fileLines, h2]
        _ = (c ++ ['\n']) :: splitAux (linesJoin cs ++ tailChunk) [] := splitAux_line _ _ hc
        _ = (c ++ ['\n']) :: fileLines (linesJoin cs ++ tailChunk) := rfl
        _ = (c ++ ['\n']) :: (cs.map (fun l => l ++ ['\n']) ++ fileLines tailChunk) := by
              rw [ih hcs]
        _ = (c :: cs).map (fun l => l ++ ['\n']) ++ fileLines tailChunk := by simp

theorem fileLines_linesJoin (contents : List (List Char))
    (h : ∀ l ∈ contents, '\n' ∉ l) :
    fileLines (linesJoin contents) = contents.map (fun l => l ++ ['\n']) := by
  have := fileLines_linesJoin_append [] contents h
  simpa [fileLines, splitAux] using this

theorem pyRstrip_append_newline (l : List Char) :
    pyRstrip (l ++ ['\n']) = pyRstrip l := by
  simp [pyRstrip, List.dropWhile, isPySpace_newline]

theorem receiverRun_linesJoin (contents : List (List Char))
    (h : ∀ l ∈ contents, '\n' ∉ l) :
    receiverRun (linesJoin contents) = contents.map pyRstrip := by
  rw [receiverRun, fileLines_linesJoin contents h, List.map_map]
  exact List.map_congr_left (fun l _ => pyRstrip_append_newline l)

theorem fileLines_single (t : List Char) (hn : '\n' ∉ t) (ht : t ≠ []) :
    fileLines t = [t] := by
  have := splitAux_no_newline t hn [] []
  rw [fileLines]
  rw [List.append_nil] at this
  rw [this]
  simp [splitAux, ht]

/-- Claim C1, as stated, is false: the per-message handling applies
Python's `rstrip()`, which removes every trailing whitespace character,
not only the newline.  For the single received frame `"a \n"` (content
`"a "`), the consumer handles `"a"`: a byte other than the trailing
newline — the trailing space — has been removed. -/
theorem c1_rstrip_removes_more_than_newline :
    receiverRun (linesJoin [['a', ' ']]) = [['a']] ∧
      (['a'] : List Char) ≠ ['a', ' '] := by
  constructor
  · rfl
  · decide

/-- Claim C1 amended: for every sequence of N newline-delimited lines
received on the socket, the consumer fires exactly N times, in wire
arrival order, and each handled message is the frame content after
removing all trailing whitespace (Python `rstrip()`) — which equals the
content minus only the trailing newline exactly when the content has no
other trailing whitespace. -/
theorem c1_receiver_fires_once_per_frame (contents : List (List Char))
    (h : ∀ l ∈ contents, '\n' ∉ l) :
    receiverRun (linesJoin contents) = contents.map pyRstrip ∧
      (receiverRun (linesJoin contents)).length = contents.length := by
  refine ⟨receiverRun_linesJoin contents h, ?_⟩
  rw [receiverRun_linesJoin contents h, List.length_map]

theorem c1_witness :
    receiverRun (linesJoin [['h', 'i'], ['y', 'o']]) = [['h', 'i'], ['y', 'o']] ∧
      (receiverRun (linesJoin [['h', 'i'], ['y', 'o']])).length = 2 := by
  have h := c1_receiver_fires_once_per_frame [['h', 'i'], ['y', 'o']] (by decide)
  exact ⟨h.1.trans (by decide), h.2⟩

/-- Claim C5: when the inbound stream ends without a trailing newline,
the buffered trailing chunk is delivered to the consumer as one final
complete message (last in the list the read loop handles before the
stream ends); it is never discarded. -/
theorem c5_partial_final_line_flushed (contents : List (List Char))
    (tailChunk : List Char) (h : ∀ l ∈ contents, '\n' ∉ l)
    (hn : '\n' ∉ tailChunk) (hne : tailChunk ≠ []) :
    fileLines (linesJoin contents ++ tailChunk) =
        contents.map (fun l => l ++ ['\n']) ++ [tailChunk] ∧
      receiverRun (linesJoin contents ++ tailChunk) =
        contents.map pyRstrip ++ [pyRstrip tailChunk] := by
  have hfl : fileLines (linesJoin contents ++ tailChunk) =
      contents.map (fun l => l ++ ['\n']) ++ [tailChunk] := by
    rw [fileLines_linesJoin_append tailChunk contents h, fileLines_single tailChunk hn hne]
  refine ⟨hfl, ?_⟩
  rw [receiverRun, hfl, List.map_append, List.map_map]
  congr 1
  exact List.map_congr_left (fun l _ => pyRstrip_append_newline l)

theorem c5_witness :
    fileLines (linesJoin [['a']] ++ ['b', 'c']) = [['a', '\n'], ['b', 'c']] ∧
      receiverRun (linesJoin [['a']] ++ ['b', 'c']) = [['a'], ['b', 'c']] := by
  have h := c5_partial_final_line_flushed [['a']] ['b', 'c']
    (by decide) (by decide) (by decide)
  exact ⟨h.1.trans (by decide), h.2.trans (by decide)⟩

/-- Claim C6: a received frame that is just a newline (zero-length line)
is delivered to the consumer as an empty message, in its position; it is
not skipped (the consumer still fires once per frame). -/
theorem c6_empty_frame_delivered (pre post : List (List Char))
    (hpre : ∀ l ∈ pre, '\n' ∉ l) (hpost : ∀ l ∈ post, '\n' ∉ l) :
    receiverRun (linesJoin (pre ++ [] :: post)) =
        pre.map pyRstrip ++ ([] : List Char) :: post.map pyRstrip ∧
      (receiverRun (linesJoin (pre ++ [] :: post))).length =
        pre.length + 1 + post.length := by
  have hall : ∀ l ∈ pre ++ [] :: post, '\n' ∉ l := by
    intro l hl
    rcases List.mem_append.mp hl with h1 | h2
    · exact hpre l h1
    · rcases List.mem_cons.mp h2 with h3 | h4
      · rw [h3]; simp
      · exact hpost l h4
  have hr := receiverRun_linesJoin (pre ++ [] :: post) hall
  constructor
  · rw [hr, List.map_append, List.map_cons]
    rfl
  · rw [hr, List.length_map, List.length_append, List.length_cons]
    omega

theorem c6_witness :
    receiverRun (linesJoin [['a'], [], ['b']]) = [['a'], [], ['b']] ∧
      (receiverRun (linesJoin [['a'], [], ['b']])).length = 3 := by
  have h := c6_empty_frame_delivered [['a']] [['b']] (by decide) (by decide)
  exact ⟨h.1.trans (by decide), h.2.trans (by decide)⟩

/-- Claim C3, as stated, is false: `default` appends `'\n'`
unconditionally, so for an input already ending in a newline the bytes
handed to the socket end in two newlines, not "exactly one newline
terminator ... appended only if the input does not already end in one". -/
theorem c3_newline_appended_unconditionally :
    defaultSend ['a', '\n'] = ['a', '\n', '\n'] ∧
      (['a', '\n', '\n'] : List Char) ≠ ['a', '\n'] := by
  constructor
  · rfl
  · decide

/-- Claim C3 amended: the bytes written are always the input plus one
appended newline (appended unconditionally, not only if absent); for
every input that does not already end in a newline — in particular every
line the interactive loop produces — the written bytes are the input
followed by exactly one newline terminator, and the whole line is handed
to the socket in a single `send` call. -/
theorem c3_send_appends_newline (line : List Char)
    (h : line.getLast? ≠ some '\n') :
    defaultWrites line = [line ++ ['\n']] ∧
      newlineTail (defaultSend line) = 1 := by
  refine ⟨rfl, ?_⟩
  rw [newlineTail, defaultSend, List.reverse_append]
  have hh : line.reverse.head? ≠ some '\n' := by
    rw [List.head?_reverse]; exact h
  cases hrev : line.reverse with
  | nil => rfl
  | cons c t =>
      rw [hrev] at hh
      have hc : c ≠ '\n' := by
        intro hc; subst hc; exact hh rfl
      simp [List.takeWhile, hc]

theorem c3_witness :
    defaultWrites ['h', 'i'] = [['h', 'i', '\n']] ∧
      newlineTail (defaultSend ['h', 'i']) = 1 :=
  c3_send_appends_newline ['h', 'i'] (by decide)

/-- Claim C2, as stated, is false: the input line `help` is not forwarded
on the socket at all — `cmd.Cmd` dispatches it to the inherited
`do_help` handler, which prints the help listing and sends nothing. -/
theorem c2_help_not_forwarded :
    (onecmd ['h', 'e', 'l', 'p'] []).1 = CmdAction.helpCall [] ∧
      CmdAction.helpCall [] ≠
        CmdAction.sendBytes (['h', 'e', 'l', 'p'] ++ ['\n']) := by
  constructor
  · rfl
  · decide

/-- Claim C2 amended: an input line is forwarded (as its
whitespace-stripped form plus a newline, in one `send`) exactly when its
stripped form is nonempty, does not begin with `?`, and its command word
(maximal `identchars` prefix) is not `help`; lines beginning with `!`
are among those forwarded (stripped, since no `do_shell` exists), while
`help`/`?` lines invoke the help handler and empty lines re-run the last
command instead of being sent. -/
theorem c2_default_forwards_stripped (line lastcmd : List Char)
    (h1 : pyStrip line ≠ [])
    (h2 : (pyStrip line).head? ≠ some '?')
    (h3 : (pyStrip line).takeWhile isIdentChar ≠ ['h', 'e', 'l', 'p']) :
    (onecmd line lastcmd).1 = CmdAction.sendBytes (pyStrip line ++ ['\n']) := by
  rw [onecmd, if_neg h1]
  rw [onecmdStep, parseline]
  simp only [if_neg h1, if_neg h2]
  by_cases hb : (pyStrip line).head? = some '!'
  · simp only [if_pos hb]
    simp [h1]
  · simp only [if_neg hb]
    by_cases hc : (pyStrip line).takeWhile isIdentChar = []
    · simp [hc]
    · simp [hc, h3]

theorem c2_witness :
    (onecmd [' ', 'p', 'i', 'n', 'g', ' '] []).1 =
      CmdAction.sendBytes ['p', 'i', 'n', 'g', '\n'] :=
  (c2_default_forwards_stripped [' ', 'p', 'i', 'n', 'g', ' '] []
    (by decide) (by decide) (by decide)).trans (by decide)

/-- Claim C7 is contradicted by the code: when stdin reaches end-of-file,
`cmdloop` substitutes the line `'EOF'` on every iteration; the class has
no `do_EOF`, so `default` sends the bytes `EOF\n` and returns `None`.
No reachable handler ever returns a truthy `stop`, so the interactive
loop never exits on its own: for every fuel bound the loop is still
running, and past end of input it performs one `send('EOF\n')` per
iteration, forever. -/
theorem c7_cmdloop_never_stops_on_eof :
    (∀ (fuel : Nat) (stdinLines : List (List Char)) (lastcmd : List Char),
        (cmdloop fuel stdinLines lastcmd).2 = false) ∧
      (∀ fuel : Nat, (cmdloop fuel [] []).1 =
        List.replicate fuel (CmdAction.sendBytes ['E', 'O', 'F', '\n'])) := by
  constructor
  · intro fuel
    induction fuel with
    | zero => intro stdinLines lastcmd; rfl
    | succ k ih =>
        intro stdinLines lastcmd
        cases stdinLines with
        | nil => exact ih [] (onecmd ['E', 'O', 'F'] lastcmd).2
        | cons l ls => exact ih ls (onecmd l lastcmd).2
  · intro fuel
    induction fuel with
    | zero => rfl
    | succ k ih =>
        have he : onecmd ['E', 'O', 'F'] [] =
            (CmdAction.sendBytes ['E', 'O', 'F', '\n'], []) := by decide
        show (onecmd ['E', 'O', 'F'] []).1 :: (cmdloop k [] (onecmd ['E', 'O', 'F'] []).2).1 =
          List.replicate (k + 1) (CmdAction.sendBytes ['E', 'O', 'F', '\n'])
        rw [he, List.replicate_succ]
        exact congrArg _ ih

/-- Claim C8 (the `Close()` of the specified core, absent from the
source): `Close()` is idempotent — a second call leaves the session in
the same terminal `Closed` state, is safe, and does not release the
socket resource a second time (the release count after two calls is the
same as after one, and at most one release beyond those already
performed). -/
theorem c8_close_idempotent (s : Session) :
    sessionClose (sessionClose s) = sessionClose s ∧
      (sessionClose s).state = SessState.closed ∧
      (sessionClose (sessionClose s)).releases = (sessionClose s).releases ∧
      (sessionClose (sessionClose s)).releases ≤ s.releases + 1 := by
  by_cases h : s.state = SessState.closed
  · have h1 : sessionClose s = s := by rw [sessionClose, if_pos h]
    rw [h1, h1]
    exact ⟨rfl, h, rfl, Nat.le_succ _⟩
  · have h1 : sessionClose s =
        { state := SessState.closed, released := true, releases := s.releases + 1 } := by
      rw [sessionClose, if_neg h]
    have h2 : sessionClose
        { state := SessState.closed, released := true, releases := s.releases + 1 } =
        { state := SessState.closed, released := true, releases := s.releases + 1 } := by
      rw [sessionClose, if_pos rfl]
    rw [h1, h2]
    exact ⟨rfl, rfl, rfl, Nat.le_refl _⟩

/-- Claim C4: host defaults to `127.0.0.1` when the first positional
argument is absent, port defaults to `1300` when the second is absent,
and present arguments are used as the host string and the `int()` value
of the port string. -/
theorem c4_argv_defaults (argv : List (List Char)) :
    (argv.length ≤ 1 → mainStartup argv = (okTrace defaultHost 1300, none)) ∧
      (∀ a0 h, argv = [a0, h] → mainStartup argv = (okTrace h 1300, none)) ∧
      (∀ a0 h p rest n, argv = a0 :: h :: p :: rest → pyInt p = some n →
        mainStartup argv = (okTrace h n, none)) := by
  refine ⟨?_, ?_, ?_⟩
  · intro hlen
    match argv, hlen with
    | [], _ => rfl
    | [a], _ => rfl
  · rintro a0 h rfl
    rfl
  · rintro a0 h p rest n rfl hp
    simp [mainStartup, hp]

theorem c4_witness :
    mainStartup [['c']] = (okTrace defaultHost 1300, none) ∧
      mainStartup [['c'], ['h']] = (okTrace ['h'] 1300, none) ∧
      mainStartup [['c'], ['h'], ['4', '2']] = (okTrace ['h'] 42, none) :=
  ⟨(c4_argv_defaults [['c']]).1 (by decide),
   (c4_argv_defaults [['c'], ['h']]).2.1 ['c'] ['h'] rfl,
   (c4_argv_defaults [['c'], ['h'], ['4', '2']]).2.2 ['c'] ['h'] ['4', '2'] [] 42
     rfl (by decide)⟩

/-- Claim C10: when a second positional argument is present but `int()`
rejects it, startup raises `ValueError` during the port conversion,
before any effect — in particular before the socket is created and
before any connection is attempted. -/
theorem c10_bad_port_fails_before_socket (a0 h p : List Char)
    (rest : List (List Char)) (hp : pyInt p = none) :
    mainStartup (a0 :: h :: p :: rest) = ([], some PyExc.valueError) := by
  simp [mainStartup, hp]

theorem c10_witness :
    mainStartup [['c'], ['h'], ['4', 'x']] = ([], some PyExc.valueError) :=
  c10_bad_port_fails_before_socket ['c'] ['h'] ['4', 'x'] [] (by decide)

theorem takeWhile_append_stop (q : Char → Bool) (d rest : List Char) (r : Char)
    (hall : ∀ c ∈ d, q c = true) (hr : q r = false) :
    (d ++ r :: rest).takeWhile q = d := by
  induction d with
  | nil => simp [List.takeWhile_cons, hr]
  | cons c cs ih =>
      have hc : q c = true := hall c (List.mem_cons_self c cs)
      have hcs : ∀ x ∈ cs, q x = true := fun x hx => hall x (List.mem_cons_of_mem c hx)
      simp [List.takeWhile_cons, hc, ih hcs]

theorem drop_length_takeWhile (q : Char → Bool) (p : List Char) :
    p.drop (p.takeWhile q).length = p.dropWhile q := by
  induction p with
  | nil => rfl
  | cons c cs ih =>
      cases hq : q c with
      | true => simp [List.takeWhile_cons, List.dropWhile_cons, hq, ih]
      | false => simp [List.takeWhile_cons, List.dropWhile_cons, hq]

/-- Claim C9: `<digits>/register`, `<digits>/get_manager_updates`,
`<digits>/get_player_updates`, `<digits>/get_team` and
`<digits>/place_bid` dispatch to the correspondingly named view with the
`draft_id` keyword argument bound to the digit string; `<digits>/`
dispatches to `draft`; the empty path dispatches to `index`; and a path
whose leading segment contains a non-digit character matches no pattern
in the table. -/
theorem c9_url_table_dispatch :
    (∀ d : List Char, d ≠ [] → (∀ c ∈ d, c.isDigit = true) →
      resolve (d ++ ['/']) = some (View.draft, some d) ∧
      resolve (d ++ ['/', 'r', 'e', 'g', 'i', 's', 't', 'e', 'r']) =
        some (View.register, some d) ∧
      resolve (d ++ ['/', 'g', 'e', 't', '_', 'm', 'a', 'n', 'a', 'g', 'e', 'r',
          '_', 'u', 'p', 'd', 'a', 't', 'e', 's']) =
        some (View.get_manager_updates, some d) ∧
      resolve (d ++ ['/', 'g', 'e', 't', '_', 'p', 'l', 'a', 'y', 'e', 'r',
          '_', 'u', 'p', 'd', 'a', 't', 'e', 's']) =
        some (View.get_player_updates, some d) ∧
      resolve (d ++ ['/', 'g', 'e', 't', '_', 't', 'e', 'a', 'm']) =
        some (View.get_team, some d) ∧
      resolve (d ++ ['/', 'p', 'l', 'a', 'c', 'e', '_', 'b', 'i', 'd']) =
        some (View.place_bid, some d)) ∧
    resolve [] = some (View.index, none) ∧
    (∀ p : List Char, (∃ c ∈ leadSegment p, c.isDigit = false) →
      resolve p = none) := by
  refine ⟨?_, rfl, ?_⟩
  · intro d hd hall
    have h0 : ∀ r' : List Char, matchUPat UPat.emptyPath (d ++ '/' :: r') = none := by
      intro r'
      simp [matchUPat]
    have hm : ∀ r' lit' : List Char,
        matchUPat (UPat.digitsThen lit') (d ++ '/' :: r') =
          if ('/' :: r' : List Char) = lit' then some (some d) else none := by
      intro r' lit'
      simp only [matchUPat]
      rw [takeWhile_append_stop Char.isDigit d r' '/' hall (by decide), List.drop_left]
      simp [hd]
    refine ⟨?_, ?_, ?_, ?_, ?_, ?_⟩ <;>
      simp [resolve, urlpatterns, dispatch, h0, hm]
  · rintro p ⟨c, hc, hcd⟩
    have hp : p ≠ [] := by
      rintro rfl
      simp [leadSegment] at hc
    have h0 : matchUPat UPat.emptyPath p = none := by
      simp [matchUPat, hp]
    have hfail : ∀ r' : List Char,
        matchUPat (UPat.digitsThen ('/' :: r')) p = none := by
      intro r'
      have hcond : ¬(p.takeWhile Char.isDigit ≠ [] ∧
          p.drop (p.takeWhile Char.isDigit).length = '/' :: r') := by
        rintro ⟨hdne, hdrop⟩
        have hsplit : p = p.takeWhile Char.isDigit ++ '/' :: r' := by
          conv_lhs => rw [← List.takeWhile_append_dropWhile Char.isDigit p]
          rw [← drop_length_takeWhile Char.isDigit p, hdrop]
        have hseg : leadSegment p = p.takeWhile Char.isDigit := by
          rw [leadSegment]
          conv_lhs => rw [hsplit]
          apply takeWhile_append_stop
          · intro x hx
            have hxd := List.mem_takeWhile_imp hx
            refine decide_eq_true ?_
            intro hxe
            subst hxe
            exact absurd hxd (by decide)
          · simp
        rw [hseg] at hc
        have := List.mem_takeWhile_imp hc
        rw [hcd] at this
        exact Bool.false_ne_true this
      simp only [matchUPat]
      rw [if_neg hcond]
    have hf1 := hfail []
    have hf2 := hfail ['r', 'e', 'g', 'i', 's', 't', 'e', 'r']
    have hf3 := hfail ['g', 'e', 't', '_', 'm', 'a', 'n', 'a', 'g', 'e', 'r',
      '_', 'u', 'p', 'd', 'a', 't', 'e', 's']
    have hf4 := hfail ['g', 'e', 't', '_', 'p', 'l', 'a', 'y', 'e', 'r',
      '_', 'u', 'p', 'd', 'a', 't', 'e', 's']
    have hf5 := hfail ['g', 'e', 't', '_', 't', 'e', 'a', 'm']
    have hf6 := hfail ['p', 'l', 'a', 'c', 'e', '_', 'b', 'i', 'd']
    simp only [resolve, urlpatterns, dispatch, h0, hf1, hf2, hf3, hf4, hf5, hf6]

theorem c9_witness :
    resolve (['1', '2'] ++ ['/', 'r', 'e', 'g', 'i', 's', 't', 'e', 'r']) =
        some (View.register, some ['1', '2']) ∧
      resolve ['a', '/', 'x'] = none :=
  ⟨(c9_url_table_dispatch.1 ['1', '2'] (by decide) (by decide)).2.1,
   c9_url_table_dispatch.2.2 ['a', '/', 'x'] ⟨'a', by decide, by decide⟩⟩
